import Mathlib

/-!
Verification of the reactive todo store of `src/todo-app/src/app/services/todo.service.ts`
(and the data model of `todo.model.ts`) against its natural-language specification.

The service holds three pieces of mutable state: the current value of the
`todosSubject` BehaviorSubject (the ordered collection), the current value of
the `selectedTodoSubject` BehaviorSubject, and the `nextId` counter.  Every
public mutating method is embedded as a pure state transformer on that state.
`Date` values are modelled as natural-number timestamps; where the code calls
`new Date()` the embedding takes the call-time timestamp as an argument.
-/

namespace TodoApp

/-- The tri-state status enumeration of `todo.model.ts`. -/
inductive Status where
  | «open»
  | done
  | deleted
deriving DecidableEq, Repr

/-- The `Todo` entity of `todo.model.ts`. -/
structure Todo where
  id : String
  title : String
  description : String
  creationDate : Nat
  status : Status
deriving DecidableEq, Repr

/-- `TodoCreateRequest` of `todo.model.ts`. -/
structure TodoCreateRequest where
  title : String
  description : String
deriving DecidableEq, Repr

/-- `TodoUpdateRequest` of `todo.model.ts`: all three fields optional;
`none` models a key that is absent from the request object. -/
structure TodoUpdateRequest where
  title : Option String := none
  description : Option String := none
  status : Option Status := none
deriving DecidableEq, Repr

/-- The state of a `TodoService` instance: the current values of
`todosSubject` and `selectedTodoSubject`, and the `nextId` counter. -/
structure ServiceState where
  todos : List Todo
  selectedTodo : Option Todo
  nextId : Nat
deriving DecidableEq, Repr

/-- The object spread `{ ...todo, ...updates }` in `updateTodo`: a field
present in the update request replaces the old value, an absent field keeps it. -/
def applyUpdates (todo : Todo) (updates : TodoUpdateRequest) : Todo :=
  { todo with
    title := updates.title.getD todo.title
    description := updates.description.getD todo.description
    status := updates.status.getD todo.status }

/-- `updateTodo(id, updates)`: maps over the collection, spreading the update
over every record whose id matches, and re-emits. -/
def updateTodo (s : ServiceState) (id : String) (updates : TodoUpdateRequest) : ServiceState :=
  { s with todos := s.todos.map fun todo => if todo.id = id then applyUpdates todo updates else todo }

/-- `deleteTodo(id)`: defined by the code as `updateTodo(id, { status: deleted })`. -/
def deleteTodo (s : ServiceState) (id : String) : ServiceState :=
  updateTodo s id { status := some Status.deleted }

/-- `toggleTodoStatus(id)`: finds the record; if it exists and its status is
not `deleted`, flips `open` and `done` via `updateTodo`; otherwise does nothing. -/
def toggleTodoStatus (s : ServiceState) (id : String) : ServiceState :=
  match s.todos.find? (fun t => t.id = id) with
  | some todo =>
      if todo.status ≠ Status.deleted then
        let newStatus := if todo.status = Status.«open» then Status.done else Status.«open»
        updateTodo s id { status := some newStatus }
      else s
  | none => s

/-- `addTodo(request)`: builds a new record with id `nextId.toString()`,
status `open` and the call-time creation date, increments the counter and
appends the record to the collection. -/
def addTodo (s : ServiceState) (request : TodoCreateRequest) (now : Nat) : ServiceState :=
  let newTodo : Todo :=
    { id := toString s.nextId
      title := request.title
      description := request.description
      creationDate := now
      status := Status.«open» }
  { s with nextId := s.nextId + 1, todos := s.todos ++ [newTodo] }

/-- `selectTodo(todo)`. -/
def selectTodo (s : ServiceState) (todo : Todo) : ServiceState :=
  { s with selectedTodo := some todo }

/-- `clearSelectedTodo()`. -/
def clearSelectedTodo (s : ServiceState) : ServiceState :=
  { s with selectedTodo := none }

/-- `deleteSelectedTodo()`: when a todo is selected, soft-deletes the record
with its id and clears the selection; otherwise does nothing. -/
def deleteSelectedTodo (s : ServiceState) : ServiceState :=
  match s.selectedTodo with
  | some selected => clearSelectedTodo (deleteTodo s selected.id)
  | none => s

/-- `updateSelectedTodo(updates)`: when a todo is selected, updates the record
with its id and replaces the selection with the spread of the old snapshot. -/
def updateSelectedTodo (s : ServiceState) (updates : TodoUpdateRequest) : ServiceState :=
  match s.selectedTodo with
  | some selected =>
      let updated := updateTodo s selected.id updates
      { updated with selectedTodo := some (applyUpdates selected updates) }
  | none => s

/-- `getTodoById(id)`: the current value of the derived stream, i.e. the first
record whose id matches, if any. -/
def getTodoById (s : ServiceState) (id : String) : Option Todo :=
  s.todos.find? fun t => t.id = id

/-- The `activeTodos$` pipe: the collection filtered to records whose status
is not `deleted`. -/
def activeTodos (s : ServiceState) : List Todo :=
  s.todos.filter fun todo => todo.status ≠ Status.deleted

/-- First sample record seeded by `initializeWithSampleData`
(the 2024-01-15 creation date is modelled as timestamp 0). -/
def sampleTodo1 : Todo :=
  { id := "1"
    title := "Learn Angular"
    description := "Complete the Angular tutorial and build a todo app"
    creationDate := 0
    status := Status.«open» }

/-- Second sample record seeded by `initializeWithSampleData`
(the 2024-01-16 creation date is modelled as timestamp 1). -/
def sampleTodo2 : Todo :=
  { id := "2"
    title := "Buy groceries"
    description := "Milk, eggs, bread, and vegetables"
    creationDate := 1
    status := Status.done }

/-- The state right after the constructor ran `initializeWithSampleData`:
two seeded records, no selection, `nextId = 3`. -/
def initState : ServiceState :=
  { todos := [sampleTodo1, sampleTodo2]
    selectedTodo := none
    nextId := 3 }

/-- The public mutating operations of `TodoService`.  `add` carries the
timestamp the code would obtain from `new Date()`. -/
inductive Op where
  | add (request : TodoCreateRequest) (now : Nat)
  | update (id : String) (updates : TodoUpdateRequest)
  | delete (id : String)
  | toggle (id : String)
  | select (todo : Todo)
  | clearSelected
  | deleteSelected
  | updateSelected (updates : TodoUpdateRequest)
deriving DecidableEq, Repr

/-- Interpretation of one public operation on the service state. -/
def applyOp (op : Op) (s : ServiceState) : ServiceState :=
  match op with
  | Op.add request now => addTodo s request now
  | Op.update id updates => updateTodo s id updates
  | Op.delete id => deleteTodo s id
  | Op.toggle id => toggleTodoStatus s id
  | Op.select todo => selectTodo s todo
  | Op.clearSelected => clearSelectedTodo s
  | Op.deleteSelected => deleteSelectedTodo s
  | Op.updateSelected updates => updateSelectedTodo s updates

/-- Interpretation of a session: the operations applied in order. -/
def applyOps (ops : List Op) (s : ServiceState) : ServiceState :=
  ops.foldl (fun s op => applyOp op s) s

/-- A state the store can be in during a session: some sequence of public
operations applied to the seeded initial state. -/
def Reachable (s : ServiceState) : Prop :=
  ∃ ops : List Op, s = applyOps ops initState

/-- Decimal value of the characters `Nat.digitChar` produces for digits 0..9;
used to show that the id generator `nextId.toString()` never repeats an id. -/
def digitVal (c : Char) : Nat :=
  if c = '0' then 0 else
  if c = '1' then 1 else
  if c = '2' then 2 else
  if c = '3' then 3 else
  if c = '4' then 4 else
  if c = '5' then 5 else
  if c = '6' then 6 else
  if c = '7' then 7 else
  if c = '8' then 8 else 9

/-- One step of reading a decimal string back into a number. -/
def decodeStep (a : Nat) (c : Char) : Nat := 10 * a + digitVal c

/-- An update request whose explicit `status` field would turn a record back
to `open` or `done`. -/
def requestRevives (updates : TodoUpdateRequest) : Bool :=
  updates.status == some Status.«open» || updates.status == some Status.done

/-- Operations that route a reviving status request into the collection:
`updateTodo` itself and `updateSelectedTodo`, which forwards to it. -/
def opRevives : Op → Bool
  | Op.update _ updates => requestRevives updates
  | Op.updateSelected updates => requestRevives updates
  | _ => false

/-- Operations that write to the `selectedTodoSubject`. -/
def touchesSelection : Op → Bool
  | Op.select _ => true
  | Op.clearSelected => true
  | Op.deleteSelected => true
  | Op.updateSelected _ => true
  | _ => false

/-- Invariant of the id generator: the counter is positive, every id in the
collection is the decimal rendering of a counter value already consumed, and
the ids are pairwise distinct. -/
def StoreInv (s : ServiceState) : Prop :=
  1 ≤ s.nextId ∧
  (∀ t ∈ s.todos, ∃ k, 1 ≤ k ∧ k < s.nextId ∧ t.id = Nat.repr k) ∧
  (s.todos.map Todo.id).Nodup

/-- `digitVal` inverts `Nat.digitChar` on decimal digits. -/
theorem digitVal_digitChar : ∀ k, k < 10 → digitVal (Nat.digitChar k) = k := by decide

/-- Reading back the digit list produced by `Nat.toDigitsCore` recovers the
number, for any sufficient fuel and any trailing characters. -/
theorem foldl_toDigitsCore (f : Nat) :
    ∀ (n : Nat) (acc : List Char), n < f →
      List.foldl decodeStep 0 (Nat.toDigitsCore 10 f n acc) = List.foldl decodeStep n acc := by
  induction f with
  | zero => intro n acc h; exact absurd h (Nat.not_lt_zero n)
  | succ f ih =>
    intro n acc h
    by_cases h10 : n / 10 = 0
    · have hlt : n < 10 := (Nat.div_eq_zero_iff (by decide)).mp h10
      have hmod : n % 10 = n := Nat.mod_eq_of_lt hlt
      simp only [Nat.toDigitsCore, h10, if_true, List.foldl, decodeStep]
      rw [digitVal_digitChar (n % 10) (Nat.mod_lt n (by decide))]
      rw [hmod]
      simp
    · have hpos : 0 < n := by
        rcases Nat.eq_zero_or_pos n with h0 | h0
        · exact absurd (by simp [h0]) h10
        · exact h0
      have hd : n / 10 < n := Nat.div_lt_self hpos (by decide)
      have hf : n / 10 < f := by omega
      simp only [Nat.toDigitsCore, h10, if_false]
      rw [ih (n / 10) (Nat.digitChar (n % 10) :: acc) hf]
      simp only [List.foldl, decodeStep]
      rw [digitVal_digitChar (n % 10) (Nat.mod_lt n (by decide))]
      rw [Nat.div_add_mod n 10]

/-- Reading the decimal rendering of `n` back yields `n`. -/
theorem decode_repr (n : Nat) : List.foldl decodeStep 0 (Nat.repr n).data = n := by
  have h := foldl_toDigitsCore (n + 1) n [] (Nat.lt_succ_self n)
  simpa [Nat.repr, Nat.toDigits, List.asString] using h

/-- Distinct counter values render to distinct id strings. -/
theorem repr_injective {m n : Nat} (h : Nat.repr m = Nat.repr n) : m = n := by
  have hm := decode_repr m
  rw [h, decode_repr n] at hm
  exact hm.symm

/-- `toString` on a natural number is `Nat.repr`. -/
theorem toString_nat (n : Nat) : toString n = Nat.repr n := rfl

/-- Spreading an update request never changes the `id` field. -/
theorem applyUpdates_id (t : Todo) (updates : TodoUpdateRequest) :
    (applyUpdates t updates).id = t.id := rfl

/-- `updateTodo` rewrites records in place: the list of ids is unchanged. -/
theorem updateTodo_map_id (s : ServiceState) (id : String) (updates : TodoUpdateRequest) :
    (updateTodo s id updates).todos.map Todo.id = s.todos.map Todo.id := by
  simp only [updateTodo, List.map_map]
  apply List.map_congr_left
  intro t _
  by_cases h : t.id = id <;> simp [h, Function.comp, applyUpdates]

/-- `updateTodo` does not touch the selection or the counter. -/
theorem updateTodo_selectedTodo (s : ServiceState) (id : String) (updates : TodoUpdateRequest) :
    (updateTodo s id updates).selectedTodo = s.selectedTodo := rfl

theorem updateTodo_nextId (s : ServiceState) (id : String) (updates : TodoUpdateRequest) :
    (updateTodo s id updates).nextId = s.nextId := rfl

/-- `toggleTodoStatus` either does nothing, or has found a non-deleted record
and forwards the flipped status to `updateTodo`. -/
theorem toggleTodoStatus_cases (s : ServiceState) (id : String) :
    toggleTodoStatus s id = s ∨
    ∃ v, s.todos.find? (fun x => x.id = id) = some v ∧ v.status ≠ Status.deleted ∧
      toggleTodoStatus s id = updateTodo s id
        { status := some (if v.status = Status.«open» then Status.done else Status.«open») } := by
  cases hfind : s.todos.find? (fun x => x.id = id) with
  | none =>
      left
      unfold toggleTodoStatus
      rw [hfind]
  | some v =>
      by_cases hvdel : v.status = Status.deleted
      · left
        unfold toggleTodoStatus
        rw [hfind]
        simp [hvdel]
      · right
        refine ⟨v, rfl, hvdel, ?_⟩
        unfold toggleTodoStatus
        rw [hfind]
        simp [hvdel]

/-- A collection whose ids coincide with those of a collection satisfying the
id part of the invariant satisfies it as well. -/
theorem idsBelow_of_map_eq (l l' : List Todo) (n : Nat)
    (hmap : l'.map Todo.id = l.map Todo.id)
    (h : ∀ t ∈ l, ∃ k, 1 ≤ k ∧ k < n ∧ t.id = Nat.repr k) :
    ∀ t ∈ l', ∃ k, 1 ≤ k ∧ k < n ∧ t.id = Nat.repr k := by
  intro t ht
  have hmem : t.id ∈ l'.map Todo.id := List.mem_map_of_mem Todo.id ht
  rw [hmap] at hmem
  rcases List.mem_map.mp hmem with ⟨u, hu, hid⟩
  rcases h u hu with ⟨k, hk1, hk2, hk3⟩
  exact ⟨k, hk1, hk2, hid ▸ hk3⟩

/-- Any state transition that keeps the ids and the counter keeps `StoreInv`. -/
theorem storeInv_congr (s s' : ServiceState) (h : StoreInv s)
    (hmap : s'.todos.map Todo.id = s.todos.map Todo.id) (hnext : s'.nextId = s.nextId) :
    StoreInv s' := by
  obtain ⟨h1, h2, h3⟩ := h
  refine ⟨hnext ▸ h1, ?_, hmap ▸ h3⟩
  intro t ht
  rcases idsBelow_of_map_eq s.todos s'.todos s.nextId hmap h2 t ht with ⟨k, hk1, hk2, hk3⟩
  exact ⟨k, hk1, hnext ▸ hk2, hk3⟩

/-- Every public operation preserves the id-generator invariant. -/
theorem storeInv_applyOp (op : Op) (s : ServiceState) (h : StoreInv s) :
    StoreInv (applyOp op s) := by
  obtain ⟨h1, h2, h3⟩ := h
  cases op with
  | add request now =>
      refine ⟨?_, ?_, ?_⟩
      · show 1 ≤ (addTodo s request now).nextId
        simp only [addTodo]
        omega
      · intro t ht
        have ht' : t ∈ s.todos ++
            [{ id := toString s.nextId, title := request.title,
               description := request.description, creationDate := now,
               status := Status.«open» }] := ht
        rcases List.mem_append.mp ht' with hmem | hmem
        · rcases h2 t hmem with ⟨k, hk1, hk2, hk3⟩
          refine ⟨k, hk1, ?_, hk3⟩
          show k < (addTodo s request now).nextId
          simp only [addTodo]
          omega
        · rw [List.mem_singleton] at hmem
          subst hmem
          refine ⟨s.nextId, h1, ?_, rfl⟩
          show s.nextId < (addTodo s request now).nextId
          simp only [addTodo]
          omega
      · show ((addTodo s request now).todos.map Todo.id).Nodup
        simp only [addTodo, List.map_append, List.map_singleton]
        refine List.Nodup.append h3 (List.nodup_singleton _) ?_
        intro a ha hb
        rcases List.mem_map.mp ha with ⟨t, ht, rfl⟩
        rcases h2 t ht with ⟨k, _, hk2, hk3⟩
        rw [List.mem_singleton] at hb
        have hrepr : Nat.repr k = Nat.repr s.nextId := by
          rw [← hk3, hb]; rfl
        exact absurd (repr_injective hrepr) (Nat.ne_of_lt hk2)
  | update id updates =>
      exact storeInv_congr s _ ⟨h1, h2, h3⟩ (updateTodo_map_id s id updates) rfl
  | delete id =>
      exact storeInv_congr s _ ⟨h1, h2, h3⟩ (updateTodo_map_id s id _) rfl
  | toggle id =>
      rcases toggleTodoStatus_cases s id with heq | ⟨v, _, _, heq⟩
      · show StoreInv (toggleTodoStatus s id)
        rw [heq]; exact ⟨h1, h2, h3⟩
      · show StoreInv (toggleTodoStatus s id)
        rw [heq]
        exact storeInv_congr s _ ⟨h1, h2, h3⟩ (updateTodo_map_id s id _) rfl
  | select todo => exact ⟨h1, h2, h3⟩
  | clearSelected => exact ⟨h1, h2, h3⟩
  | deleteSelected =>
      show StoreInv (deleteSelectedTodo s)
      unfold deleteSelectedTodo
      cases s.selectedTodo with
      | none => exact ⟨h1, h2, h3⟩
      | some selected =>
          exact storeInv_congr s _ ⟨h1, h2, h3⟩ (updateTodo_map_id s selected.id _) rfl
  | updateSelected updates =>
      show StoreInv (updateSelectedTodo s updates)
      unfold updateSelectedTodo
      cases s.selectedTodo with
      | none => exact ⟨h1, h2, h3⟩
      | some selected =>
          exact storeInv_congr s _ ⟨h1, h2, h3⟩ (updateTodo_map_id s selected.id _) rfl

/-- The invariant is preserved along any sequence of operations. -/
theorem storeInv_applyOps (ops : List Op) :
    ∀ s : ServiceState, StoreInv s → StoreInv (applyOps ops s) := by
  induction ops with
  | nil => intro s h; exact h
  | cons op ops ih => intro s h; exact ih (applyOp op s) (storeInv_applyOp op s h)

/-- The seeded initial state satisfies the invariant. -/
theorem storeInv_initState : StoreInv initState := by
  refine ⟨by decide, ?_, by decide⟩
  intro t ht
  rcases List.mem_cons.mp ht with rfl | ht
  · exact ⟨1, by decide, by decide, by decide⟩
  rcases List.mem_cons.mp ht with rfl | ht
  · exact ⟨2, by decide, by decide, by decide⟩
  · cases ht

/-- Every reachable state satisfies the invariant. -/
theorem storeInv_reachable (s : ServiceState) (h : Reachable s) : StoreInv s := by
  rcases h with ⟨ops, rfl⟩
  exact storeInv_applyOps ops initState storeInv_initState

/-- With pairwise distinct ids, two members of the collection with the same
id are the same record. -/
theorem eq_of_mem_same_id (l : List Todo) (hnd : (l.map Todo.id).Nodup)
    (t u : Todo) (ht : t ∈ l) (hu : u ∈ l) (hid : u.id = t.id) : u = t :=
  List.inj_on_of_nodup_map hnd hu ht hid

/-- With pairwise distinct ids, `find?` on an id that belongs to a member
returns exactly that member. -/
theorem find_id_of_mem (l : List Todo) (t : Todo) (id : String)
    (hnd : (l.map Todo.id).Nodup) (ht : t ∈ l) (hid : t.id = id) :
    l.find? (fun x => x.id = id) = some t := by
  induction l with
  | nil => cases ht
  | cons a l ih =>
      rcases List.mem_cons.mp ht with rfl | hmem
      · exact List.find?_cons_of_pos l (by simp [hid])
      · have hane : ¬ (a.id = id) := by
          intro he
          have hin : t.id ∈ l.map Todo.id := List.mem_map_of_mem Todo.id hmem
          rw [hid, ← he] at hin
          exact (List.nodup_cons.mp (by simpa using hnd)).1 hin
        rw [List.find?_cons_of_neg l (by simpa using hane)]
        exact ih (List.nodup_cons.mp (by simpa using hnd)).2 hmem

/-- The status an update request leaves on a deleted record, when the request
does not explicitly carry `open` or `done`. -/
theorem applyUpdates_keeps_deleted (t : Todo) (updates : TodoUpdateRequest)
    (hnr : requestRevives updates = false) (hdel : t.status = Status.deleted) :
    (applyUpdates t updates).status = Status.deleted := by
  simp only [requestRevives, Bool.or_eq_false_iff, beq_eq_false_iff_ne, ne_eq] at hnr
  obtain ⟨h1, h2⟩ := hnr
  cases hst : updates.status with
  | none => simp [applyUpdates, hst, hdel]
  | some st =>
      cases st with
      | «open» => exact absurd hst h1
      | done => exact absurd hst h2
      | deleted => simp [applyUpdates, hst]

/-- A non-reviving `updateTodo` never moves a record with the id of a deleted
record out of `deleted`. -/
theorem updateTodo_keeps_deleted (s : ServiceState) (id : String)
    (updates : TodoUpdateRequest) (t : Todo)
    (hnr : requestRevives updates = false)
    (hnd : (s.todos.map Todo.id).Nodup) (ht : t ∈ s.todos)
    (hdel : t.status = Status.deleted) :
    ∀ u ∈ (updateTodo s id updates).todos, u.id = t.id → u.status = Status.deleted := by
  intro u hu hid
  rcases List.mem_map.mp hu with ⟨v, hv, rfl⟩
  by_cases hcase : v.id = id
  · rw [if_pos hcase] at hid ⊢
    rw [applyUpdates_id] at hid
    have hvt : v = t := eq_of_mem_same_id s.todos hnd t v ht hv hid
    subst hvt
    exact applyUpdates_keeps_deleted v updates hnr hdel
  · rw [if_neg hcase] at hid ⊢
    have hvt : v = t := eq_of_mem_same_id s.todos hnd t v ht hv hid
    subst hvt
    exact hdel

/-- `updateTodo` on an id different from the id of a deleted record leaves
every record carrying the deleted record's id deleted. -/
theorem updateTodo_keeps_other (s : ServiceState) (id : String)
    (updates : TodoUpdateRequest) (t : Todo)
    (hnd : (s.todos.map Todo.id).Nodup) (ht : t ∈ s.todos)
    (htid : t.id ≠ id) (hdel : t.status = Status.deleted) :
    ∀ u ∈ (updateTodo s id updates).todos, u.id = t.id → u.status = Status.deleted := by
  intro u hu hid
  rcases List.mem_map.mp hu with ⟨v, hv, rfl⟩
  by_cases hcase : v.id = id
  · rw [if_pos hcase] at hid
    rw [applyUpdates_id] at hid
    exact absurd (by rw [← hid]; exact hcase) htid
  · rw [if_neg hcase] at hid ⊢
    rw [eq_of_mem_same_id s.todos hnd t v ht hv hid]
    exact hdel

/-- `toggleTodoStatus` when `find?` has located a record. -/
theorem toggleTodoStatus_eq_found (s : ServiceState) (id : String) (v : Todo)
    (hfind : s.todos.find? (fun x => x.id = id) = some v) :
    toggleTodoStatus s id =
      if v.status ≠ Status.deleted then
        updateTodo s id
          { status := some (if v.status = Status.«open» then Status.done else Status.«open») }
      else s := by
  unfold toggleTodoStatus
  rw [hfind]

/-- C8: in every reachable state the ids in the collection are pairwise
distinct, the id the next `addTodo` would assign differs from every id already
in the collection (records are never removed, so those are all the ids ever
assigned, the seeded ids `1` and `2` included), and the counter starts at the
count of seeded records plus one. -/
theorem ids_unique (ops : List Op) :
    ((applyOps ops initState).todos.map Todo.id).Nodup ∧
    (∀ t ∈ (applyOps ops initState).todos,
      t.id ≠ toString (applyOps ops initState).nextId) ∧
    initState.nextId = initState.todos.length + 1 := by
  obtain ⟨h1, h2, h3⟩ := storeInv_applyOps ops initState storeInv_initState
  refine ⟨h3, ?_, rfl⟩
  intro t ht heq
  rcases h2 t ht with ⟨k, _, hk2, hk3⟩
  rw [hk3, toString_nat] at heq
  exact absurd (repr_injective heq) (Nat.ne_of_lt hk2)

/-- C2: `updateTodo(id, updates)` keeps the length and the positions of the
collection; the record at a position with a different id is untouched, and the
record at a position whose id matches keeps its id, its creation date and
every field absent from the request, while the fields present in the request
are replaced. -/
theorem updateTodo_frame (s : ServiceState) (id : String) (updates : TodoUpdateRequest)
    (i : Nat) (t : Todo) (ht : s.todos[i]? = some t) :
    (updateTodo s id updates).todos.length = s.todos.length ∧
    (t.id ≠ id → (updateTodo s id updates).todos[i]? = some t) ∧
    (t.id = id → (updateTodo s id updates).todos[i]? = some
      { id := t.id
        title := updates.title.getD t.title
        description := updates.description.getD t.description
        creationDate := t.creationDate
        status := updates.status.getD t.status }) := by
  refine ⟨by simp [updateTodo], ?_, ?_⟩
  · intro hne
    show (s.todos.map fun todo => if todo.id = id then applyUpdates todo updates else todo)[i]?
        = some t
    rw [List.getElem?_map, ht]
    simp [hne]
  · intro heq
    show (s.todos.map fun todo => if todo.id = id then applyUpdates todo updates else todo)[i]?
        = some _
    rw [List.getElem?_map, ht]
    simp [heq, applyUpdates]

/-- C2 witness: updating the title of the second seeded record through its id
rewrites exactly that position, keeping the untouched fields. -/
theorem updateTodo_frame_witness :
    (updateTodo initState "2" { title := some "Shop" }).todos[1]? = some
      { id := "2"
        title := "Shop"
        description := sampleTodo2.description
        creationDate := 1
        status := Status.done } := by
  have h := updateTodo_frame initState "2" { title := some "Shop" } 1 sampleTodo2 (by decide)
  exact h.2.2 rfl

/-- Updating through an id that matches no record leaves the whole state
unchanged, whatever the request. -/
theorem updateTodo_noop_of_missing (s : ServiceState) (id : String)
    (updates : TodoUpdateRequest) (h : ∀ t ∈ s.todos, t.id ≠ id) :
    updateTodo s id updates = s := by
  have hmap : (s.todos.map fun todo =>
      if todo.id = id then applyUpdates todo updates else todo) = s.todos := by
    conv_rhs => rw [← List.map_id s.todos]
    apply List.map_congr_left
    intro t ht
    simp [h t ht]
  show { s with todos := _ } = s
  rw [hmap]

/-- C3: when the id matches no record, `updateTodo` (and with it `deleteTodo`)
is a silent no-op: the state is returned unchanged and, being a total
function, nothing faults. -/
theorem update_missing_id_noop (s : ServiceState) (id : String)
    (updates : TodoUpdateRequest) (h : ∀ t ∈ s.todos, t.id ≠ id) :
    updateTodo s id updates = s ∧ deleteTodo s id = s :=
  ⟨updateTodo_noop_of_missing s id updates h,
   updateTodo_noop_of_missing s id _ h⟩

/-- C3 witness: the scenario of the spec, updating the title of `missing-id`
over the seeded collection. -/
theorem update_missing_id_noop_witness :
    updateTodo initState "missing-id" { title := some "x" } = initState ∧
    deleteTodo initState "missing-id" = initState :=
  update_missing_id_noop initState "missing-id" { title := some "x" } (by decide)

/-- After `deleteTodo(id)`, every record carrying that id has status
`deleted`. -/
theorem deleteTodo_all_deleted (s : ServiceState) (id : String) :
    ∀ u ∈ (deleteTodo s id).todos, u.id = id → u.status = Status.deleted := by
  intro u hu hid
  rcases List.mem_map.mp hu with ⟨v, hv, rfl⟩
  by_cases hcase : v.id = id
  · simp [hcase, applyUpdates]
  · rw [if_neg hcase] at hid
    exact absurd hid hcase

/-- C6: `deleteTodo(id)` is exactly `updateTodo(id, { status: deleted })`;
when a record with the id exists it stays in the full collection with status
`deleted`, every record with that id ends up `deleted`, and no record with
that id appears in the active view. -/
theorem deleteTodo_spec (s : ServiceState) (id : String) :
    deleteTodo s id = updateTodo s id { status := some Status.deleted } ∧
    (∀ t, t ∈ s.todos → t.id = id →
      { t with status := Status.deleted } ∈ (deleteTodo s id).todos) ∧
    (∀ u ∈ (deleteTodo s id).todos, u.id = id → u.status = Status.deleted) ∧
    (∀ u ∈ activeTodos (deleteTodo s id), u.id ≠ id) := by
  refine ⟨rfl, ?_, deleteTodo_all_deleted s id, ?_⟩
  · intro t ht hid
    show _ ∈ s.todos.map fun todo =>
      if todo.id = id then applyUpdates todo { status := some Status.deleted } else todo
    exact List.mem_map.mpr ⟨t, ht, by simp [hid, applyUpdates]⟩
  · intro u hu hid
    obtain ⟨hu1, hu2⟩ := List.mem_filter.mp hu
    have hdel := deleteTodo_all_deleted s id u hu1 hid
    rw [hdel] at hu2
    simp at hu2

/-- C7: the active view is the full collection filtered to non-deleted
records, it is a sublist of it (so the relative insertion order is kept),
membership is exactly membership with a non-deleted status, and the equation
holds again for the state every mutation produces. -/
theorem activeTodos_spec (s : ServiceState) (op : Op) :
    activeTodos s = s.todos.filter (fun todo => todo.status ≠ Status.deleted) ∧
    List.Sublist (activeTodos s) s.todos ∧
    (∀ t, t ∈ activeTodos s ↔ t ∈ s.todos ∧ t.status ≠ Status.deleted) ∧
    activeTodos (applyOp op s)
      = (applyOp op s).todos.filter (fun todo => todo.status ≠ Status.deleted) := by
  refine ⟨rfl, List.filter_sublist s.todos, ?_, rfl⟩
  intro t
  constructor
  · intro h
    obtain ⟨h1, h2⟩ := List.mem_filter.mp h
    exact ⟨h1, by simpa using h2⟩
  · intro h
    exact List.mem_filter.mpr ⟨h.1, by simpa using h.2⟩

/-- C10: `deleteSelectedTodo` with a selection soft-deletes the record whose
id is the selected snapshot's id and clears the selection; without a
selection it leaves the state untouched. -/
theorem deleteSelectedTodo_spec (s : ServiceState) :
    (s.selectedTodo = none → deleteSelectedTodo s = s) ∧
    (∀ t, s.selectedTodo = some t →
      (deleteSelectedTodo s).selectedTodo = none ∧
      (deleteSelectedTodo s).todos
        = s.todos.map (fun x => if x.id = t.id then { x with status := Status.deleted } else x) ∧
      (deleteSelectedTodo s).nextId = s.nextId) := by
  constructor
  · intro h
    unfold deleteSelectedTodo
    rw [h]
  · intro t h
    unfold deleteSelectedTodo
    rw [h]
    exact ⟨rfl, rfl, rfl⟩

/-- C4: `addTodo` appends exactly one record at the end of the collection,
with the id rendered from the counter, status `open` and the call-time
creation date; under the id-generator invariant the new id differs from every
existing id, and the active view grows by exactly one. -/
theorem addTodo_spec (s : ServiceState) (request : TodoCreateRequest) (now : Nat)
    (hids : ∀ t ∈ s.todos, ∃ k, 1 ≤ k ∧ k < s.nextId ∧ t.id = Nat.repr k)
    (htitle : request.title ≠ "") (hdescription : request.description ≠ "") :
    (addTodo s request now).todos
      = s.todos ++ [{ id := toString s.nextId
                      title := request.title
                      description := request.description
                      creationDate := now
                      status := Status.«open» }] ∧
    (∀ t ∈ s.todos, t.id ≠ toString s.nextId) ∧
    (activeTodos (addTodo s request now)).length = (activeTodos s).length + 1 := by
  refine ⟨rfl, ?_, ?_⟩
  · intro t ht heq
    rcases hids t ht with ⟨k, _, hk2, hk3⟩
    rw [hk3, toString_nat] at heq
    exact absurd (repr_injective heq) (Nat.ne_of_lt hk2)
  · show (List.filter _ (s.todos ++ [_])).length = _
    rw [List.filter_append]
    simp [activeTodos]

/-- C4 witness: the scenario of the spec over the seeded state; the active
view goes from two entries to three. -/
theorem addTodo_spec_witness :
    (activeTodos (addTodo initState
        { title := "Write tests", description := "cover the store" } 2)).length
      = (activeTodos initState).length + 1 :=
  (addTodo_spec initState { title := "Write tests", description := "cover the store" } 2
    (by
      intro t ht
      rcases List.mem_cons.mp ht with rfl | ht
      · exact ⟨1, by decide, by decide, by decide⟩
      rcases List.mem_cons.mp ht with rfl | ht
      · exact ⟨2, by decide, by decide, by decide⟩
      · cases ht)
    (by decide) (by decide)).2.2

/-- C5: with pairwise distinct ids, toggling the id of an `open` record turns
exactly that record `done`, toggling the id of a `done` record turns it
`open`, toggling the id of a `deleted` record leaves the whole state
unchanged, and toggling an id that matches no record leaves the whole state
unchanged. -/
theorem toggleTodoStatus_spec (s : ServiceState) (id : String)
    (hnd : (s.todos.map Todo.id).Nodup) :
    (∀ t, t ∈ s.todos → t.id = id →
      ((t.status = Status.«open» →
          (toggleTodoStatus s id).todos
            = s.todos.map fun x => if x.id = id then { x with status := Status.done } else x) ∧
       (t.status = Status.done →
          (toggleTodoStatus s id).todos
            = s.todos.map fun x => if x.id = id then { x with status := Status.«open» } else x) ∧
       (t.status = Status.deleted → toggleTodoStatus s id = s))) ∧
    ((∀ t ∈ s.todos, t.id ≠ id) → toggleTodoStatus s id = s) := by
  constructor
  · intro t ht hid
    have hfind := find_id_of_mem s.todos t id hnd ht hid
    have heq := toggleTodoStatus_eq_found s id t hfind
    refine ⟨?_, ?_, ?_⟩ <;> intro hst <;> rw [heq, hst]
    · simp [updateTodo, applyUpdates]
    · simp [updateTodo, applyUpdates]
    · simp
  · intro h
    have hfind : s.todos.find? (fun x => x.id = id) = none := by
      apply List.find?_eq_none.mpr
      intro x hx
      simpa using h x hx
    unfold toggleTodoStatus
    rw [hfind]

/-- C5 witness: toggling the seeded `open` record turns it `done` in place. -/
theorem toggleTodoStatus_spec_witness :
    (toggleTodoStatus initState "1").todos
      = initState.todos.map
          (fun x => if x.id = "1" then { x with status := Status.done } else x) :=
  (((toggleTodoStatus_spec initState "1" (by decide)).1 sampleTodo1
      (by decide) rfl).1) rfl

/-- C1 counterexample: deleted is not terminal under the public contract as
stated.  In the session that soft-deletes the first seeded record,
`updateTodo("1", { status: open })` — a public store operation — moves the
record back to `open`. -/
theorem deleted_is_terminal_counterexample :
    ¬ (∀ (s : ServiceState) (op : Op) (t : Todo), Reachable s → t ∈ s.todos →
        t.status = Status.deleted →
        ∀ u ∈ (applyOp op s).todos, u.id = t.id → u.status = Status.deleted) := by
  intro h
  have hreach : Reachable (applyOps [Op.delete "1"] initState) := ⟨[Op.delete "1"], rfl⟩
  have hmem : ({ sampleTodo1 with status := Status.deleted } : Todo)
      ∈ (applyOps [Op.delete "1"] initState).todos := by decide
  have hres := h (applyOps [Op.delete "1"] initState)
    (Op.update "1" { status := some Status.«open» })
    { sampleTodo1 with status := Status.deleted } hreach hmem rfl
  have hu : sampleTodo1 ∈ (applyOp (Op.update "1" { status := some Status.«open» })
      (applyOps [Op.delete "1"] initState)).todos := by decide
  exact absurd (hres sampleTodo1 hu rfl) (by decide)

/-- C1 amended: a deleted record stays deleted under every public operation
except an update that explicitly carries status `open` or `done`
(`updateTodo` itself, or `updateSelectedTodo` forwarding such a request):
create, softDelete, toggleStatus, the selection operations and updates whose
status field is absent or `deleted` never change it, given the id-uniqueness
invariant of reachable states. -/
theorem deleted_is_terminal (s : ServiceState) (op : Op) (t : Todo)
    (hop : opRevives op = false)
    (hfresh : ∀ u ∈ s.todos, u.id ≠ toString s.nextId)
    (hnd : (s.todos.map Todo.id).Nodup)
    (ht : t ∈ s.todos) (hdel : t.status = Status.deleted) :
    ∀ u ∈ (applyOp op s).todos, u.id = t.id → u.status = Status.deleted := by
  have hsame : ∀ u ∈ s.todos, u.id = t.id → u.status = Status.deleted := by
    intro u hu hid
    rw [eq_of_mem_same_id s.todos hnd t u ht hu hid]
    exact hdel
  cases op with
  | add request now =>
      intro u hu hid
      have hu' : u ∈ s.todos ++
          [{ id := toString s.nextId, title := request.title,
             description := request.description, creationDate := now,
             status := Status.«open» }] := hu
      rcases List.mem_append.mp hu' with hmem | hmem
      · exact hsame u hmem hid
      · rw [List.mem_singleton] at hmem
        subst hmem
        exact absurd hid.symm (hfresh t ht)
  | update id updates =>
      exact updateTodo_keeps_deleted s id updates t hop hnd ht hdel
  | delete id =>
      exact updateTodo_keeps_deleted s id { status := some Status.deleted } t
        (by decide) hnd ht hdel
  | toggle id =>
      show ∀ u ∈ (toggleTodoStatus s id).todos, u.id = t.id → u.status = Status.deleted
      rcases toggleTodoStatus_cases s id with heq | ⟨v, hfind, hvdel, heq⟩
      · rw [heq]
        exact hsame
      · have hvmem := List.mem_of_find?_eq_some hfind
        have hvid : v.id = id := by simpa using List.find?_some hfind
        have htid : t.id ≠ id := by
          intro he
          have hvt : v = t := eq_of_mem_same_id s.todos hnd t v ht hvmem (by rw [hvid, he])
          exact hvdel (by rw [hvt]; exact hdel)
        rw [heq]
        exact updateTodo_keeps_other s id _ t hnd ht htid hdel
  | select todo => exact hsame
  | clearSelected => exact hsame
  | deleteSelected =>
      show ∀ u ∈ (deleteSelectedTodo s).todos, u.id = t.id → u.status = Status.deleted
      unfold deleteSelectedTodo
      cases hsel : s.selectedTodo with
      | none => exact hsame
      | some selected =>
          exact updateTodo_keeps_deleted s selected.id { status := some Status.deleted } t
            (by decide) hnd ht hdel
  | updateSelected updates =>
      show ∀ u ∈ (updateSelectedTodo s updates).todos, u.id = t.id → u.status = Status.deleted
      unfold updateSelectedTodo
      cases hsel : s.selectedTodo with
      | none => exact hsame
      | some selected =>
          exact updateTodo_keeps_deleted s selected.id updates t hop hnd ht hdel

/-- C1 witness: in the session that soft-deletes the first seeded record,
toggling that id leaves the record deleted. -/
theorem deleted_is_terminal_witness :
    ({ sampleTodo1 with status := Status.deleted } : Todo).status = Status.deleted :=
  deleted_is_terminal (applyOps [Op.delete "1"] initState) (Op.toggle "1")
    { sampleTodo1 with status := Status.deleted }
    (by decide) (by decide) (by decide) (by decide) rfl
    { sampleTodo1 with status := Status.deleted } (by decide) rfl

/-- C9 counterexample: it is not true that only `updateSelectedTodo`,
`deleteSelectedTodo` and `clearSelectedTodo` change the selection —
`selectTodo` changes it as well. -/
theorem selection_snapshot_counterexample :
    ¬ (∀ (s : ServiceState) (op : Op),
        (∀ updates, op ≠ Op.updateSelected updates) →
        op ≠ Op.deleteSelected → op ≠ Op.clearSelected →
        (applyOp op s).selectedTodo = s.selectedTodo) := by
  intro h
  have := h initState (Op.select sampleTodo1)
    (fun _ hc => nomatch hc) (fun hc => nomatch hc) (fun hc => nomatch hc)
  exact absurd this (by decide)

/-- C9 amended: the selection is a snapshot.  No operation outside the four
that write to `selectedTodoSubject` (`selectTodo`, `clearSelectedTodo`,
`deleteSelectedTodo`, `updateSelectedTodo`) ever changes it: in particular,
with a todo `t` selected, `updateTodo(t.id, changes)` and `deleteTodo(t.id)`
rewrite the collection record while the selection still holds the old
snapshot `t`. -/
theorem selection_snapshot (s : ServiceState) (t : Todo) (op : Op)
    (hsel : s.selectedTodo = some t) (hop : touchesSelection op = false) :
    (applyOp op s).selectedTodo = some t := by
  cases op with
  | add request now => rw [← hsel]; rfl
  | update id updates => rw [← hsel]; rfl
  | delete id => rw [← hsel]; rfl
  | toggle id =>
      show (toggleTodoStatus s id).selectedTodo = some t
      rcases toggleTodoStatus_cases s id with heq | ⟨v, _, _, heq⟩
      · rw [heq]
        exact hsel
      · rw [heq]
        exact hsel
  | select todo => exact Bool.noConfusion hop
  | clearSelected => exact Bool.noConfusion hop
  | deleteSelected => exact Bool.noConfusion hop
  | updateSelected updates => exact Bool.noConfusion hop

/-- C9 witness: with the first seeded record selected, updating its title
through the collection leaves the selection holding the old snapshot. -/
theorem selection_snapshot_witness :
    (applyOp (Op.update "1" { title := some "New" })
        (selectTodo initState sampleTodo1)).selectedTodo = some sampleTodo1 :=
  selection_snapshot (selectTodo initState sampleTodo1) sampleTodo1
    (Op.update "1" { title := some "New" }) rfl rfl

end TodoApp
